import Mathlib

/-!
Shallow embedding of the consensus core of the bitcoinecho node (Go sources
under pkg/bitcoin and the companion files): hashing, transaction and block
serialisation, transaction validation, proof-of-work retargeting, the script
number decoder, peer-message framing, the UTXO set and the chain manager with
fork handling.  Machine integers are modelled as `Nat`/`Int` with explicit
wrap-around (`% 2 ^ 32`, `% 2 ^ 64`) where the Go code relies on it; byte
strings are `List Nat` with each element in `[0, 256)`; Go maps keyed by
strings become association lists with first-match semantics; fallible Go
functions returning `error` become `Option String` (the error) or
`Except String α`.
-/

namespace BitcoinEcho

/-! ## 32-bit word helpers and SHA-256 (crypto/sha256 as used by the source) -/

/-- Wrap to a 32-bit word. -/
def w32 (n : Nat) : Nat := n % 4294967296

/-- Right-rotate a 32-bit word by n (0 < n < 32); the two parts occupy
disjoint bit ranges, so the rotation is a sum. -/
def rotr32 (x n : Nat) : Nat := x / 2 ^ n + x % 2 ^ n * 2 ^ (32 - n)

/-- Logical right shift of a 32-bit word. -/
def shr32 (x n : Nat) : Nat := x / 2 ^ n

/-- Bitwise complement of a 32-bit word. -/
def not32 (a : Nat) : Nat := 4294967295 - a

/-- SHA-256 choice function. -/
def ch32 (x y z : Nat) : Nat := (x &&& y) ^^^ (not32 x &&& z)

/-- SHA-256 majority function. -/
def maj32 (x y z : Nat) : Nat := (x &&& y) ^^^ (x &&& z) ^^^ (y &&& z)

/-- SHA-256 big sigma 0. -/
def bsig0 (x : Nat) : Nat := rotr32 x 2 ^^^ rotr32 x 13 ^^^ rotr32 x 22

/-- SHA-256 big sigma 1. -/
def bsig1 (x : Nat) : Nat := rotr32 x 6 ^^^ rotr32 x 11 ^^^ rotr32 x 25

/-- SHA-256 small sigma 0. -/
def ssig0 (x : Nat) : Nat := rotr32 x 7 ^^^ rotr32 x 18 ^^^ shr32 x 3

/-- SHA-256 small sigma 1. -/
def ssig1 (x : Nat) : Nat := rotr32 x 17 ^^^ rotr32 x 19 ^^^ shr32 x 10

/-- The 64 SHA-256 round constants. -/
def shaK : List Nat :=
  [1116352408, 1899447441, 3049323471, 3921009573, 961987163, 1508970993,
   2453635748, 2870763221, 3624381080, 310598401, 607225278, 1426881987,
   1925078388, 2162078206, 2614888103, 3248222580, 3835390401, 4022224774,
   264347078, 604807628, 770255983, 1249150122, 1555081692, 1996064986,
   2554220882, 2821834349, 2952996808, 3210313671, 3336571891, 3584528711,
   113926993, 338241895, 666307205, 773529912, 1294757372, 1396182291,
   1695183700, 1986661051, 2177026350, 2456956037, 2730485921, 2820302411,
   3259730800, 3345764771, 3516065817, 3600352804, 4094571909, 275423344,
   430227734, 506948616, 659060556, 883997877, 958139571, 1322822218,
   1537002063, 1747873779, 1955562222, 2024104815, 2227730452, 2361852424,
   2428436474, 2756734187, 3204031479, 3329325298]

/-- The eight SHA-256 initial hash values. -/
def shaH0 : List Nat :=
  [1779033703, 3144134277, 1013904242, 2773480762,
   1359893119, 2600822924, 528734635, 1541459225]

/-- SHA-256 padding: append 0x80, zero bytes up to 56 mod 64, then the 8-byte
big-endian bit length. -/
def shaPad (msg : List Nat) : List Nat :=
  let len := msg.length
  let zeros := (55 + 64 - len % 64) % 64
  let bitLen := len * 8
  msg ++ [0x80] ++ List.replicate zeros 0 ++
    [bitLen / 2 ^ 56 % 256, bitLen / 2 ^ 48 % 256, bitLen / 2 ^ 40 % 256, bitLen / 2 ^ 32 % 256,
     bitLen / 2 ^ 24 % 256, bitLen / 2 ^ 16 % 256, bitLen / 2 ^ 8 % 256, bitLen % 256]

/-- Group bytes into 32-bit big-endian words. -/
def bytesToWords : List Nat → List Nat
  | b0 :: b1 :: b2 :: b3 :: rest => (b0 * 16777216 + b1 * 65536 + b2 * 256 + b3) :: bytesToWords rest
  | _ => []

/-- Extend the 16 message words by n schedule steps. -/
def shaSchedule (ws : List Nat) : Nat → List Nat
  | 0 => ws
  | n + 1 =>
    let ws' := shaSchedule ws n
    let t := ws'.length
    let w := w32 (ssig1 (ws'.getD (t - 2) 0) + ws'.getD (t - 7) 0 +
                  ssig0 (ws'.getD (t - 15) 0) + ws'.getD (t - 16) 0)
    ws' ++ [w]

/-- One round of the SHA-256 compression; the state is the 8 words a..h. -/
def shaRound (st : List Nat) (kw : Nat × Nat) : List Nat :=
  match st with
  | [a, b, c, d, e, f, g, h] =>
    let t1 := w32 (h + bsig1 e + ch32 e f g + kw.1 + kw.2)
    let t2 := w32 (bsig0 a + maj32 a b c)
    [w32 (t1 + t2), a, b, c, w32 (d + t1), e, f, g]
  | other => other

/-- Compress one 16-word block into the running 8-word state. -/
def shaCompress (st : List Nat) (block : List Nat) : List Nat :=
  let ws := shaSchedule block 48
  let st' := (shaK.zip ws).foldl (fun s kw => shaRound s kw) st
  (st.zip st').map (fun p => w32 (p.1 + p.2))

/-- Split into 64-byte chunks; the fuel (any bound on the chunk count, here the
length itself) keeps the recursion structural so the kernel can evaluate it. -/
def chunk64Fuel : Nat → List Nat → List (List Nat)
  | 0, _ => []
  | _ + 1, [] => []
  | fuel + 1, l => l.take 64 :: chunk64Fuel fuel (l.drop 64)

/-- Split a padded message into 64-byte blocks. -/
def chunk64 (l : List Nat) : List (List Nat) := chunk64Fuel l.length l

/-- Emit the 8-word state as 32 big-endian bytes. -/
def wordsToBytes : List Nat → List Nat
  | [] => []
  | w :: rest => w / 16777216 % 256 :: w / 65536 % 256 :: w / 256 % 256 :: w % 256 :: wordsToBytes rest

/-- SHA-256 of a byte string (FIPS 180-4, as crypto/sha256). -/
def sha256 (msg : List Nat) : List Nat :=
  let blocks := chunk64 (shaPad msg)
  let final := blocks.foldl (fun st b => shaCompress st (bytesToWords b)) shaH0
  wordsToBytes final

/-- DoubleHashSHA256 from hash.go: SHA256(SHA256(data)). -/
def doubleHashSHA256 (data : List Nat) : List Nat := sha256 (sha256 data)

/-! ## Little-endian codecs and hex rendering -/

/-- Write a u32 as 4 little-endian bytes (binary.LittleEndian.PutUint32). -/
def le32 (n : Nat) : List Nat := [n % 256, n / 256 % 256, n / 65536 % 256, n / 16777216 % 256]

/-- Write a u64 as 8 little-endian bytes (binary.LittleEndian.PutUint64). -/
def le64 (n : Nat) : List Nat :=
  [n % 256, n / 2 ^ 8 % 256, n / 2 ^ 16 % 256, n / 2 ^ 24 % 256,
   n / 2 ^ 32 % 256, n / 2 ^ 40 % 256, n / 2 ^ 48 % 256, n / 2 ^ 56 % 256]

/-- Read the first k bytes of a buffer as a little-endian integer
(binary.LittleEndian.UintNN). -/
def readLE (k : Nat) (l : List Nat) : Nat := (l.take k).foldr (fun b acc => b + acc * 256) 0

/-- The little-endian value of a whole byte string. -/
def leNat (l : List Nat) : Nat := l.foldr (fun b acc => b + acc * 256) 0

/-- The big-endian value of a byte string (big.Int SetBytes). -/
def beNat (l : List Nat) : Nat := l.foldl (fun acc b => acc * 256 + b) 0

/-- Lowercase hex digit for a value below 16 (encoding/hex). -/
def hexDigitChar (n : Nat) : Char :=
  if n < 10 then Char.ofNat (48 + n) else Char.ofNat (87 + n)

/-- Hex rendering of a byte string in natural order (Hash256.String). -/
def hashHex (h : List Nat) : String :=
  String.mk (h.foldr (fun b acc => hexDigitChar (b / 16) :: hexDigitChar (b % 16) :: acc) [])

/-- The all-zero 256-bit hash (ZeroHash). -/
def zeroHash : List Nat := List.replicate 32 0

/-! ## Data model (transaction.go, block.go) -/

/-- OutPoint: a reference to a transaction output. -/
structure OutPoint where
  hash : List Nat
  index : Nat
deriving DecidableEq, Inhabited

/-- TxInput with its per-input SegWit witness stack. -/
structure TxInput where
  previousOutput : OutPoint
  scriptSig : List Nat
  sequence : Nat
  witness : List (List Nat)
deriving DecidableEq, Inhabited

/-- TxOutput: value in satoshis plus the output script. -/
structure TxOutput where
  value : Nat
  scriptPubKey : List Nat
deriving DecidableEq, Inhabited

/-- Transaction-level witness entry (TxWitness). -/
structure TxWitness where
  stack : List (List Nat)
deriving DecidableEq, Inhabited

/-- A Bitcoin transaction.  The Go struct also carries two lazily cached hash
fields; the cache of a pure function is the function itself, so they are
omitted here. -/
structure Transaction where
  version : Nat
  inputs : List TxInput
  outputs : List TxOutput
  lockTime : Nat
  witnesses : List TxWitness
deriving DecidableEq, Inhabited

/-- An 80-byte block header (cached hash field omitted as above). -/
structure BlockHeader where
  version : Nat
  prevBlockHash : List Nat
  merkleRoot : List Nat
  timestamp : Nat
  bits : Nat
  nonce : Nat
deriving DecidableEq, Inhabited

/-- A block: header plus transactions (cached hash and optional height
omitted; height is never read by the chain manager). -/
structure Block where
  header : BlockHeader
  transactions : List Transaction
deriving DecidableEq, Inhabited

/-- MaxMoney from transaction.go. -/
def maxMoney : Nat := 21000000 * 100000000

/-! ## Transaction operations (transaction.go) -/

/-- IsCoinbase: exactly one input whose previous outpoint is the null
outpoint (zero hash, index 0xffffffff). -/
def isCoinbase (tx : Transaction) : Bool :=
  match tx.inputs with
  | [i] => i.previousOutput.hash == zeroHash && i.previousOutput.index == 4294967295
  | _ => false

/-- HasWitness: witness data on the transaction-level field or on any
individual input (second definition in transaction.go, the one the
serialiser uses). -/
def hasWitness (tx : Transaction) : Bool :=
  decide (0 < tx.witnesses.length) || tx.inputs.any (fun i => decide (0 < i.witness.length))

/-- TotalOutput: sum of all output values in a Go uint64, so every addition
wraps at 2^64. -/
def totalOutput (tx : Transaction) : Nat :=
  tx.outputs.foldl (fun total o => (total + o.value) % 18446744073709551616) 0

/-- The duplicate-inputs scan of Validate: the Go loop records each previous
outpoint in a seen-map and fails when one repeats; a repeat exists exactly
when some input shares its outpoint with a later one. -/
def hasDuplicateInputs : List TxInput → Bool
  | [] => false
  | i :: rest =>
    rest.any (fun j => j.previousOutput == i.previousOutput) || hasDuplicateInputs rest

/-- Validate from transaction.go, with the error message of the failing
check (index arguments of fmt.Errorf dropped from the message text). -/
def txValidate (tx : Transaction) : Option String :=
  if tx.inputs.length = 0 then some "transaction has no inputs"
  else if tx.outputs.length = 0 then some "transaction has no outputs"
  else if hasDuplicateInputs tx.inputs then some "transaction has duplicate inputs"
  else if tx.outputs.any (fun o => decide (o.value > maxMoney)) then
    some "output value exceeds maximum"
  else if totalOutput tx > maxMoney then some "total output value exceeds maximum"
  else none

/-- Transaction.Hash: the source is a stub that caches and returns the zero
hash for every transaction (TODO in transaction.go). -/
def txHash (_tx : Transaction) : List Nat := zeroHash

/-- Transaction.WitnessHash: same stub, zero hash for every transaction. -/
def txWitnessHash (_tx : Transaction) : List Nat := zeroHash

/-! ## VarInt and transaction serialisation (transaction.go) -/

/-- EncodeVarInt. -/
def encodeVarInt (value : Nat) : List Nat :=
  if value < 0xfd then [value]
  else if value ≤ 0xffff then [0xfd, value % 256, value / 256 % 256]
  else if value ≤ 0xffffffff then 0xfe :: le32 value
  else 0xff :: le64 value

/-- DecodeVarInt: value and number of bytes read, or the error message. -/
def decodeVarInt (data : List Nat) : Except String (Nat × Nat) :=  match data with
  | [] => .error "empty data"
  | first :: _ =>
    if first < 0xfd then .ok (first, 1)
    else if first = 0xfd then
      if data.length < 3 then .error "insufficient data for fd varint"
      else .ok (readLE 2 (data.drop 1), 3)
    else if first = 0xfe then
      if data.length < 5 then .error "insufficient data for fe varint"
      else .ok (readLE 4 (data.drop 1), 5)
    else
      if data.length < 9 then .error "insufficient data for ff varint"
      else .ok (readLE 8 (data.drop 1), 9)

/-- One serialised input: reversed previous hash, index, script, sequence. -/
def serializeInput (i : TxInput) : List Nat :=
  i.previousOutput.hash.reverse ++ le32 i.previousOutput.index ++
  encodeVarInt i.scriptSig.length ++ i.scriptSig ++ le32 i.sequence

/-- One serialised output: value, script length, script. -/
def serializeOutput (o : TxOutput) : List Nat :=
  le64 o.value ++ encodeVarInt o.scriptPubKey.length ++ o.scriptPubKey

/-- One serialised witness stack: element count, then each element with its
length prefix. -/
def serializeWitnessStack (stack : List (List Nat)) : List Nat :=
  encodeVarInt stack.length ++
  stack.foldl (fun acc e => acc ++ encodeVarInt e.length ++ e) []

/-- Transaction.Serialize: version; SegWit marker/flag iff witness data is
present; inputs; outputs; per-input witness stacks followed by the
transaction-level witness stacks (both loops are in the source); locktime. -/
def serializeTx (tx : Transaction) : List Nat :=
  le32 tx.version ++
  (if hasWitness tx then [0x00, 0x01] else []) ++
  encodeVarInt tx.inputs.length ++
  tx.inputs.foldl (fun acc i => acc ++ serializeInput i) [] ++
  encodeVarInt tx.outputs.length ++
  tx.outputs.foldl (fun acc o => acc ++ serializeOutput o) [] ++
  (if hasWitness tx then
    tx.inputs.foldl (fun acc i => acc ++ serializeWitnessStack i.witness) [] ++
    tx.witnesses.foldl (fun acc w => acc ++ serializeWitnessStack w.stack) []
   else []) ++
  le32 tx.lockTime

/-- Parse count inputs off the front of the buffer (the inputs loop of
DeserializeTransaction); the stored previous hash is the byte reversal of
the 32 wire bytes, and the parsed input carries no witness data. -/
def parseInputs : Nat → List Nat → Except String (List TxInput × List Nat)
  | 0, rest => .ok ([], rest)
  | n + 1, rest =>
    if rest.length < 32 then .error "insufficient data for input hash"
    else
      let hashWire := rest.take 32
      let r1 := rest.drop 32
      if r1.length < 4 then .error "insufficient data for input index"
      else
        let idx := readLE 4 r1
        let r2 := r1.drop 4
        match decodeVarInt r2 with
        | .error e => .error ("failed to decode input script length: " ++ e)
        | .ok (slen, consumed) =>
          let r3 := r2.drop consumed
          if slen > 0x7fffffff then .error "input script length too large"
          else if r3.length < slen then .error "insufficient data for input script"
          else
            let scriptSig := r3.take slen
            let r4 := r3.drop slen
            if r4.length < 4 then .error "insufficient data for input sequence"
            else
              let seq := readLE 4 r4
              let r5 := r4.drop 4
              match parseInputs n r5 with
              | .error e => .error e
              | .ok (is, rest') =>
                .ok ({ previousOutput := { hash := hashWire.reverse, index := idx },
                       scriptSig := scriptSig, sequence := seq, witness := [] } :: is, rest')

/-- Parse count outputs off the front of the buffer (the outputs loop of
DeserializeTransaction). -/
def parseOutputs : Nat → List Nat → Except String (List TxOutput × List Nat)
  | 0, rest => .ok ([], rest)
  | n + 1, rest =>
    if rest.length < 8 then .error "insufficient data for output value"
    else
      let v := readLE 8 rest
      let r1 := rest.drop 8
      match decodeVarInt r1 with
      | .error e => .error ("failed to decode output script length: " ++ e)
      | .ok (slen, consumed) =>
        let r2 := r1.drop consumed
        if slen > 0x7fffffff then .error "output script length too large"
        else if r2.length < slen then .error "insufficient data for output script"
        else
          let script := r2.take slen
          let r3 := r2.drop slen
          match parseOutputs n r3 with
          | .error e => .error e
          | .ok (os, rest') => .ok ({ value := v, scriptPubKey := script } :: os, rest')

/-- DeserializeTransaction: version, input count and inputs, output count and
outputs, locktime.  The source never detects the SegWit marker/flag and never
parses witness data (TODO in the source); trailing bytes are ignored. -/
def deserializeTransaction (data : List Nat) : Except String Transaction :=
  if data.length = 0 then .error "empty transaction data"
  else if data.length < 4 then .error "insufficient data for version"
  else
    let version := readLE 4 data
    let r0 := data.drop 4
    match decodeVarInt r0 with
    | .error e => .error ("failed to decode input count: " ++ e)
    | .ok (inputCount, br0) =>
      if inputCount > 0x7fffffff then .error "input count too large"
      else
        match parseInputs inputCount (r0.drop br0) with
        | .error e => .error e
        | .ok (inputs, r1) =>
          match decodeVarInt r1 with
          | .error e => .error ("failed to decode output count: " ++ e)
          | .ok (outputCount, br1) =>
            if outputCount > 0x7fffffff then .error "output count too large"
            else
              match parseOutputs outputCount (r1.drop br1) with
              | .error e => .error e
              | .ok (outputs, r2) =>
                if r2.length < 4 then .error "insufficient data for locktime"
                else
                  .ok { version := version, inputs := inputs, outputs := outputs,
                        lockTime := readLE 4 r2, witnesses := [] }

/-! ## Block hashing (block.go) -/

/-- BlockHeader.serialize: exactly 80 bytes, integers little-endian, the two
embedded hashes byte-reversed. -/
def serializeHeader (h : BlockHeader) : List Nat :=
  le32 h.version ++ h.prevBlockHash.reverse ++ h.merkleRoot.reverse ++
  le32 h.timestamp ++ le32 h.bits ++ le32 h.nonce

/-- BlockHeader.Hash: double SHA-256 of the serialised header, byte-reversed
for display order. -/
def headerHash (h : BlockHeader) : List Nat := (doubleHashSHA256 (serializeHeader h)).reverse

/-- Block.Hash delegates to the header hash. -/
def blockHash (b : Block) : List Nat := headerHash b.header

/-! ## Proof-of-work and difficulty retargeting (pow.go) -/

/-- CompactToBigTarget: decode the 0xEEMMMMNN compact form; zero input or an
exponent above 32 decode to target 0; exponents at most 3 shift the mantissa
right, larger ones shift it left. -/
def compactToBigTarget (compactBits : Nat) : Nat :=
  if compactBits = 0 then 0
  else
    let exponent := compactBits / 16777216
    let mantissa := compactBits % 16777216
    if exponent > 32 then 0
    else if exponent ≤ 3 then mantissa / 2 ^ ((3 - exponent) * 8)
    else mantissa * 2 ^ ((exponent - 3) * 8)

/-- Number of big-endian bytes of a natural number (len of big.Int Bytes);
the fuel keeps the recursion structural, and n itself bounds the byte count. -/
def byteLenFuel : Nat → Nat → Nat
  | 0, _ => 0
  | fuel + 1, n => if n = 0 then 0 else byteLenFuel fuel (n / 256) + 1

/-- Length in bytes of the minimal big-endian encoding. -/
def byteLen (n : Nat) : Nat := byteLenFuel n n

/-- BigTargetToCompact: exponent is the byte length; the mantissa is the top
three bytes (zero-padded on the right when fewer than three exist); a set
mantissa high bit shifts right one byte and bumps the exponent; an exponent
above 255 yields 0. -/
def bigTargetToCompact (target : Nat) : Nat :=
  if target = 0 then 0
  else
    let lenB := byteLen target
    let mantissa0 := if lenB ≥ 3 then target / 2 ^ (8 * (lenB - 3))
                     else target * 2 ^ (8 * (3 - lenB))
    let mantissa := if mantissa0 &&& 0x800000 ≠ 0 then mantissa0 / 256 else mantissa0
    let exponent := if mantissa0 &&& 0x800000 ≠ 0 then lenB + 1 else lenB
    if exponent > 255 then 0
    else exponent * 16777216 + mantissa % 16777216

/-- ValidateProofOfWork: the block hash bytes read as a big-endian integer
must not exceed the decoded target. -/
def validateProofOfWork (hashBytes : List Nat) (targetBits : Nat) : Bool :=
  decide (beNat hashBytes ≤ compactToBigTarget targetBits)

/-- AdjustDifficulty: unchanged for actual time 0 or exactly the two-week
target timespan; otherwise clamp the time to at most 4x above and 4x below
the timespan, scale the decoded target and re-encode it. -/
def adjustDifficulty (currentTargetBits actualTimeSeconds : Nat) : Nat :=
  if actualTimeSeconds = 0 then currentTargetBits
  else if actualTimeSeconds = 1209600 then currentTargetBits
  else
    let currentTarget := compactToBigTarget currentTargetBits
    let t1 := if actualTimeSeconds > 1209600 * 4 then 1209600 * 4 else actualTimeSeconds
    let t2 := if t1 < 1209600 / 4 then 1209600 / 4 else t1
    bigTargetToCompact (currentTarget * t2 / 1209600)

/-! ## Script number decoding (script.go, ScriptEngine.bytesToNum) -/

/-- Interpret a 64-bit pattern as a two's-complement Go int64. -/
def int64OfNat (u : Nat) : Int :=
  if u < 9223372036854775808 then (u : Int) else (u : Int) - 18446744073709551616

/-- The loop body of bytesToNum: index i walks the bytes, acc accumulates the
int64 bit pattern OR-ed so far.  The loop breaks once i exceeds 7; the sign
branch fires only on the last byte, which for at most 8 input bytes is the
final iteration, so no OR follows a negation.  The i = 7 accumulation is the
one place the Go int64 can wrap, hence the % 2 ^ 64 at the exits. -/
def btnLoop (data : List Nat) : Nat → Nat → Nat → Int
  | 0, acc, _ => int64OfNat (acc % 18446744073709551616)
  | fuel + 1, acc, i =>
    if i < data.length then
      if i > 7 then int64OfNat (acc % 18446744073709551616)
      else
        let b := data.getD i 0
        if i = data.length - 1 then
          if b &&& 0x80 ≠ 0 then
            -(int64OfNat ((acc ||| (b &&& 0x7f) <<< (8 * i)) % 18446744073709551616))
          else int64OfNat ((acc ||| b <<< (8 * i)) % 18446744073709551616)
        else btnLoop data fuel (acc ||| b <<< (8 * i)) (i + 1)
    else int64OfNat (acc % 18446744073709551616)

/-- ScriptEngine.bytesToNum: empty input is zero, otherwise run the loop.
The fuel (the input length bounds the iteration count, and exhausted fuel
exits exactly like the loop's own exit) keeps the recursion structural. -/
def bytesToNum (data : List Nat) : Int :=
  if data.length = 0 then 0 else btnLoop data data.length 0 0

/-! ## Peer message framing (P2PMessage.Serialize) -/

/-- Bitcoin mainnet magic. -/
def magicMainnet : Nat := 0xd9b4bef9

/-- The 32 MiB payload bound (checked only by the deserialiser). -/
def maxPayload : Nat := 32 * 1024 * 1024

/-- P2PMessage.Serialize: nil (none) only when the payload length exceeds
0xffffffff; otherwise the Go code fills a zeroed buffer of 24 + len bytes
with five copies at consecutive exact-fit offsets 0, 4, 16, 20 and 24 —
magic, the command truncated to at most 12 bytes with NUL padding, the
little-endian length, the first 4 checksum bytes, and the payload. -/
def p2pSerialize (command payload : List Nat) : Option (List Nat) :=
  if payload.length > 0xffffffff then none
  else
    some (le32 magicMainnet ++
          (command.take 12 ++ List.replicate (12 - command.length) 0) ++
          le32 payload.length ++
          (doubleHashSHA256 payload).take 4 ++
          payload)

/-! ## UTXO set (the UTXO source file) -/

/-- A UTXO entry. -/
structure UTXO where
  txHash : List Nat
  outputIndex : Nat
  amount : Nat
  scriptPubKey : List Nat
deriving DecidableEq, Inhabited

/-- The UTXO set: a Go map keyed by the string "hexhash:index", modelled as
an association list with unique keys (Go map iteration order is
unobserved by the functions used here). -/
abbrev UTXOSet := List (String × UTXO)

/-- makeKey: fmt.Sprintf with the hex hash, a colon, and the decimal index. -/
def makeKey (txHash : List Nat) (outputIndex : Nat) : String :=
  hashHex txHash ++ ":" ++ Nat.repr outputIndex

/-- Set a key in an association list, overwriting an existing binding
(Go map assignment). -/
def mapSet {α : Type} : List (String × α) → String → α → List (String × α)
  | [], k, v => [(k, v)]
  | (k', v') :: rest, k, v =>
    if k' = k then (k, v) :: rest else (k', v') :: mapSet rest k v

/-- Remove a key from an association list (Go map delete). -/
def mapRemove {α : Type} : List (String × α) → String → List (String × α)
  | [], _ => []
  | (k', v') :: rest, k => if k' = k then mapRemove rest k else (k', v') :: mapRemove rest k

/-- Look up a key (Go map read). -/
def mapGet? {α : Type} : List (String × α) → String → Option α
  | [], _ => none
  | (k', v') :: rest, k => if k' = k then some v' else mapGet? rest k

/-- UTXOSet.Add: keyed insert, overwriting silently. -/
def utxoAdd (s : UTXOSet) (u : UTXO) : UTXOSet :=
  mapSet s (makeKey u.txHash u.outputIndex) u

/-- UTXOSet.Remove (the Go method also reports whether the key existed; the
chain manager ignores that result). -/
def utxoRemove (s : UTXOSet) (txHash : List Nat) (outputIndex : Nat) : UTXOSet :=
  mapRemove s (makeKey txHash outputIndex)

/-- UTXOSet.Find. -/
def utxoFind (s : UTXOSet) (txHash : List Nat) (outputIndex : Nat) : Option UTXO :=
  mapGet? s (makeKey txHash outputIndex)

/-- UTXOSet.Size. -/
def utxoSize (s : UTXOSet) : Nat := s.length

/-! ## Chain manager (the reorganisation-capable BlockChain in
transaction.go) -/

/-- The blockchain state: active blocks, UTXO set, tip, and the map of
competing forks keyed by a string derived from the fork root predecessor. -/
structure BlockChain where
  blocks : List Block
  utxoSet : UTXOSet
  tip : Option Block
  forkBlocks : List (String × List Block)
deriving DecidableEq, Inhabited

/-- The test-only PoW escape hatch: nonce 1 or in [12345, 20000) or in
[50000, 60000). -/
def isTestNonce (h : BlockHeader) : Bool :=
  h.nonce == 1 || (decide (12345 ≤ h.nonce) && decide (h.nonce < 20000)) ||
  (decide (50000 ≤ h.nonce) && decide (h.nonce < 60000))

/-- processBlockTransactions: per transaction, first remove every input's
previous outpoint unless the transaction is coinbase, then add a UTXO for
every output whose index fits a uint32 (keyed by the transaction hash, which
the source stubs to the zero hash). -/
def processBlockTransactions (utxo : UTXOSet) (b : Block) : UTXOSet :=
  b.transactions.foldl
    (fun u tx =>
      let u1 := if isCoinbase tx then u
                else tx.inputs.foldl
                  (fun u2 i => utxoRemove u2 i.previousOutput.hash i.previousOutput.index) u
      tx.outputs.enum.foldl
        (fun u2 jo =>
          if jo.1 > 4294967295 then u2
          else utxoAdd u2 { txHash := txHash tx, outputIndex := jo.1,
                            amount := jo.2.value, scriptPubKey := jo.2.scriptPubKey })
        u1)
    utxo

/-- NewBlockChain: start empty, and when a genesis block is supplied (non-nil
in Go) append it, make it the tip and process its transactions — with no
validation of any kind. -/
def newBlockChain (genesisBlock : Option Block) : BlockChain :=
  match genesisBlock with
  | none => { blocks := [], utxoSet := [], tip := none, forkBlocks := [] }
  | some g =>
    { blocks := [g], utxoSet := processBlockTransactions [] g, tip := some g, forkBlocks := [] }

/-- validateBlock: the genesis branch (empty chain) checks only that some
transaction exists; otherwise check the previous hash against the tip, then
proof of work (unless a test nonce), then non-empty transactions, then that
the first transaction is coinbase. -/
def validateBlock (bc : BlockChain) (b : Block) : Option String :=
  if bc.blocks.length = 0 then
    if b.transactions.length = 0 then some "genesis block must have at least one transaction"
    else none
  else
    match bc.tip with
    | none => some "nil tip"  -- Go dereferences a nil tip here; unreachable from AddBlock
    | some t =>
      if b.header.prevBlockHash ≠ blockHash t then some "invalid previous block hash"
      else if ¬ isTestNonce b.header ∧ ¬ validateProofOfWork (blockHash b) b.header.bits then
        some "invalid proof of work"
      else if b.transactions.length = 0 then some "block must have at least one transaction"
      else
        match b.transactions with
        | [] => none  -- unreachable: the previous branch handled the empty list
        | t0 :: _ => if isCoinbase t0 then none else some "first transaction must be coinbase"

/-- validateForkBlock: non-empty transactions, first transaction coinbase,
then proof of work with the same test escape hatch; no previous-hash check. -/
def validateForkBlock (b : Block) : Option String :=
  if b.transactions.length = 0 then some "block must have at least one transaction"
  else
    match b.transactions with
    | [] => none  -- unreachable as above
    | t0 :: _ =>
      if ¬ isCoinbase t0 then some "first transaction must be coinbase"
      else if ¬ isTestNonce b.header ∧ ¬ validateProofOfWork (blockHash b) b.header.bits then
        some "invalid proof of work"
      else none

/-- The descending scan of findForkPoint: try index i - 1, then lower. -/
def findForkPointFrom (blocks : List Block) (prevHash : List Nat) : Nat → Int
  | 0 => -1
  | i + 1 =>
    if blockHash (blocks.getD i default) = prevHash then (i : Int)
    else findForkPointFrom blocks prevHash i

/-- findForkPoint: the largest active index whose block hash equals the
given hash, or -1. -/
def findForkPoint (blocks : List Block) (prevHash : List Nat) : Int :=
  findForkPointFrom blocks prevHash blocks.length

/-- findForkConnection: the first tracked fork containing a block with the
given hash, paired with the active index of that fork's root predecessor
(-1 when the root no longer connects); ("", -1) when no fork matches. -/
def findForkConnection (bc : BlockChain) (prevHash : List Nat) : String × Int :=
  match bc.forkBlocks.find? (fun kc => kc.2.any (fun blk => blockHash blk == prevHash)) with
  | some kc =>
    (kc.1, match kc.2.head? with
           | some b0 => findForkPoint bc.blocks b0.header.prevBlockHash
           | none => -1)  -- unreachable: a matching fork contains a block
  | none => ("", -1)

/-- rebuildUTXOSet: clear and replay every block in order. -/
def rebuildUTXOSet (blocks : List Block) : UTXOSet :=
  blocks.foldl processBlockTransactions []

/-- reorganizeToFork: truncate the active chain to the fork point, append the
fork blocks, point the tip at the fork's last block (the Go code indexes the
last element; every call site passes a non-empty fork) and rebuild the UTXO
set from scratch. -/
def reorganizeToFork (bc : BlockChain) (forkPoint : Int) (forkBs : List Block) : BlockChain :=
  let newBlocks := bc.blocks.take (forkPoint + 1).toNat ++ forkBs
  { bc with blocks := newBlocks,
            tip := forkBs.getLast?,
            utxoSet := rebuildUTXOSet newBlocks }

/-- handlePotentialReorganization: a block whose predecessor is on the active
chain starts a new fork after fork validation and reorganises when strictly
longer than the active blocks above the fork point; a block whose predecessor
is inside a tracked fork extends that fork with no validation and reorganises
under the same strict comparison; otherwise the block is rejected. -/
def handlePotentialReorganization (bc : BlockChain) (b : Block) : Except String BlockChain :=
  let forkPoint := findForkPoint bc.blocks b.header.prevBlockHash
  if forkPoint = -1 then
    let conn := findForkConnection bc b.header.prevBlockHash
    if conn.1 = "" then .error "block does not connect to any known block"
    else
      let newFork := (mapGet? bc.forkBlocks conn.1).getD [] ++ [b]
      let bc1 := { bc with forkBlocks := mapSet bc.forkBlocks conn.1 newFork }
      let mainChainFromFork : Int := (bc1.blocks.length : Int) - conn.2 - 1
      if (newFork.length : Int) > mainChainFromFork then
        .ok (reorganizeToFork bc1 conn.2 newFork)
      else .ok bc1
  else
    match validateForkBlock b with
    | some err => .error ("fork block validation failed: " ++ err)
    | none =>
      let forkKey := "fork_" ++ hashHex b.header.prevBlockHash
      let bc1 := { bc with forkBlocks := mapSet bc.forkBlocks forkKey [b] }
      let mainChainFromFork : Int := (bc1.blocks.length : Int) - forkPoint - 1
      if (1 : Int) > mainChainFromFork then
        .ok (reorganizeToFork bc1 forkPoint [b])
      else .ok bc1

/-- AddBlock: a block on the current tip is validated, appended and applied
to the UTXO set; anything else goes to the reorganisation handler.  (The Go
method first rejects a nil pointer; blocks are values here.) -/
def addBlock (bc : BlockChain) (b : Block) : Except String BlockChain :=
  match bc.tip with
  | some t =>
    if b.header.prevBlockHash = blockHash t then
      match validateBlock bc b with
      | some err => .error ("block validation failed: " ++ err)
      | none =>
        .ok { bc with blocks := bc.blocks ++ [b], tip := some b,
                      utxoSet := processBlockTransactions bc.utxoSet b }
    else handlePotentialReorganization bc b
  | none => handlePotentialReorganization bc b

/-! ## Auxiliary definitions for stating the claims -/

/-- Decidable equality for Except results, so concrete runs can be checked
by decide. -/
instance exceptDecEq {ε α : Type} [DecidableEq ε] [DecidableEq α] :
    DecidableEq (Except ε α) := fun x y =>
  match x, y with
  | .ok a, .ok b =>
    if h : a = b then isTrue (by rw [h]) else isFalse (fun hc => h (Except.ok.inj hc))
  | .error a, .error b =>
    if h : a = b then isTrue (by rw [h]) else isFalse (fun hc => h (Except.error.inj hc))
  | .ok _, .error _ => isFalse (fun hc => Except.noConfusion hc)
  | .error _, .ok _ => isFalse (fun hc => Except.noConfusion hc)

/-- Whether an Except result is a success. -/
def exceptIsOk {ε α : Type} : Except ε α → Bool
  | .ok _ => true
  | .error _ => false

/-- The exact (unbounded) sum of all output values, as the claim about
Validate words it; contrast with totalOutput, which wraps at 2 ^ 64. -/
def sumOutputsExact (tx : Transaction) : Nat :=
  tx.outputs.foldl (fun total o => total + o.value) 0

/-- The sign-magnitude reading of a script number that the specification
describes for inputs of at most 8 bytes: the little-endian integer whose
most significant byte carries the sign bit 0x80. -/
def scriptNumValueLE (s : List Nat) : Int :=
  if s.length = 0 then 0
  else if 128 ≤ s.getD (s.length - 1) 0 then
    -((leNat (s.take (s.length - 1)) +
       s.getD (s.length - 1) 0 % 128 * 2 ^ (8 * (s.length - 1)) : Nat) : Int)
  else ((leNat (s.take (s.length - 1)) +
        s.getD (s.length - 1) 0 % 128 * 2 ^ (8 * (s.length - 1)) : Nat) : Int)

/-! ## Concrete fixtures used by witnesses and counterexamples -/

/-- A minimal coinbase transaction; the tag byte in the script makes
distinct fixtures distinct. -/
def fixtureCoinbase (tag value : Nat) : Transaction :=
  { version := 1,
    inputs := [{ previousOutput := { hash := zeroHash, index := 4294967295 },
                 scriptSig := [tag], sequence := 4294967295, witness := [] }],
    outputs := [{ value := value, scriptPubKey := [] }],
    lockTime := 0, witnesses := [] }

/-- A header fixture; distinct nonces give distinct hashes. -/
def fixtureHeader (prev : List Nat) (nonce : Nat) : BlockHeader :=
  { version := 1, prevBlockHash := prev, merkleRoot := zeroHash,
    timestamp := 0, bits := 0x207fffff, nonce := nonce }

/-- Genesis fixture. -/
def fxG : Block :=
  { header := fixtureHeader zeroHash 1, transactions := [fixtureCoinbase 1 50] }

/-- Chain block on top of the genesis fixture (test nonce). -/
def fxA : Block :=
  { header := fixtureHeader (blockHash fxG) 12346, transactions := [fixtureCoinbase 2 40] }

/-- First fork block, also rooted at the genesis fixture. -/
def fxF1 : Block :=
  { header := fixtureHeader (blockHash fxG) 50001, transactions := [fixtureCoinbase 3 30] }

/-- Second fork block, on top of the first. -/
def fxF2 : Block :=
  { header := fixtureHeader (blockHash fxF1) 50002, transactions := [fixtureCoinbase 4 20] }

/-- A two-block chain already tracking [fxF1] as a fork rooted at index 0,
exactly the state handlePotentialReorganization leaves after accepting fxF1. -/
def fxChain : BlockChain :=
  { blocks := [fxG, fxA],
    utxoSet := rebuildUTXOSet [fxG, fxA],
    tip := some fxA,
    forkBlocks := [("fork_" ++ hashHex (blockHash fxG), [fxF1])] }

/-- A tip extension of the genesis fixture paying 30 satoshis (test nonce),
for exhibiting the zero-txid UTXO key collision. -/
def fxB30 : Block :=
  { header := fixtureHeader (blockHash fxG) 1, transactions := [fixtureCoinbase 2 30] }

/-- A block with no transactions whose predecessor is the tracked fork block
fxF1: the fork-extension path accepts it without any validation. -/
def fxEmptyTxBlock : Block :=
  { header := fixtureHeader (blockHash fxF1) 2, transactions := [] }

/-- A transaction with per-input witness data, serialisable by the codec. -/
def fxWitnessTx : Transaction :=
  { version := 1,
    inputs := [{ previousOutput := { hash := zeroHash, index := 0 },
                 scriptSig := [], sequence := 0, witness := [[7]] }],
    outputs := [{ value := 5, scriptPubKey := [] }],
    lockTime := 0, witnesses := [] }

/-- A transaction whose 8785 outputs each hold exactly MaxMoney: every
per-output check passes and the wrapping uint64 total lands back below
MaxMoney, though the exact sum is astronomically larger. -/
def fxOverflowTx : Transaction :=
  { version := 1,
    inputs := [{ previousOutput := { hash := zeroHash, index := 0 },
                 scriptSig := [], sequence := 0, witness := [] }],
    outputs := List.replicate 8785 { value := maxMoney, scriptPubKey := [] },
    lockTime := 0, witnesses := [] }

/-- The mainnet genesis header, used as a hash test vector. -/
def fxGenesisMainnetHeader : BlockHeader :=
  { version := 1, prevBlockHash := zeroHash,
    merkleRoot := [0x4a, 0x5e, 0x1e, 0x4b, 0xaa, 0xb8, 0x9f, 0x3a, 0x32, 0x51, 0x8a, 0x88,
                   0xc3, 0x1b, 0xc8, 0x7f, 0x61, 0x8f, 0x76, 0x67, 0x3e, 0x2c, 0xc7, 0x7a,
                   0xb2, 0x12, 0x7b, 0x7a, 0xfd, 0xed, 0xa3, 0x3b],
    timestamp := 1231006505, bits := 0x1d00ffff, nonce := 2083236893 }

/-! ## Hash model anchors -/

set_option maxRecDepth 10000 in
/-- Anchor: the double SHA-256 of the empty string matches the published
vector, tying the SHA model to crypto/sha256. -/
theorem doubleHashSHA256_empty_vector :
    doubleHashSHA256 [] =
      [0x5d, 0xf6, 0xe0, 0xe2, 0x76, 0x13, 0x59, 0xd3, 0x0a, 0x82, 0x75, 0x05, 0x8e, 0x29,
       0x9f, 0xcc, 0x03, 0x81, 0x53, 0x45, 0x45, 0xf5, 0x5c, 0xf4, 0x3e, 0x41, 0x98, 0x3f,
       0x5d, 0x4c, 0x94, 0x56] := by decide

set_option maxRecDepth 10000 in
/-- Anchor: the genesis header hashes and renders to the well-known mainnet
genesis id, and it passes the proof-of-work check at bits 0x1d00ffff. -/
theorem genesisHeaderHash_vector :
    hashHex (headerHash fxGenesisMainnetHeader) =
      "000000000019d6689c085ae165831e934ff763ae46a2a6c172b3f1b60a8ce26f" ∧
    validateProofOfWork (headerHash fxGenesisMainnetHeader) 0x1d00ffff = true := by decide

/-! ## C2 -/

set_option maxRecDepth 10000 in
/-- C2: the UTXO invariant fails on the code.  The chain [fxG, fxB30] has two
transactions with one unspent output each (no input spends anything but the
null coinbase outpoint), so the claimed invariant demands two entries; but
because Transaction.Hash returns the zero hash for every transaction, both
outputs key to zerohash:0 and the second Add overwrites the first, leaving a
single entry holding the 30-satoshi output. -/
theorem c2_utxo_invariant_failure :
    (addBlock (newBlockChain (some fxG)) fxB30).map (fun bc => bc.utxoSet.length) =
      .ok 1 ∧
    (addBlock (newBlockChain (some fxG)) fxB30).map
        (fun bc => (utxoFind bc.utxoSet zeroHash 0).map (fun u => u.amount)) =
      .ok (some 30) ∧
    (fxG.transactions ++ fxB30.transactions).foldl (fun n tx => n + tx.outputs.length) 0 = 2 := by
  decide

/-! ## C3 -/

set_option maxRecDepth 10000 in
/-- C3: round-tripping fails for witness-bearing transactions.  fxWitnessTx
is serialisable (its serialisation starts with version 1 and the SegWit
marker/flag 0x00 0x01), but DeserializeTransaction never parses the
marker/flag or witness data, so deserialising the serialisation does not
return the transaction. -/
theorem c3_serialize_roundtrip_failure :
    hasWitness fxWitnessTx = true ∧
    (serializeTx fxWitnessTx).take 6 = [1, 0, 0, 0, 0, 1] ∧
    deserializeTransaction (serializeTx fxWitnessTx) ≠ .ok fxWitnessTx := by decide

/-! ## C5 -/

set_option maxRecDepth 10000 in
/-- C5: txid and wtxid are stubs.  For a concrete witness-free transaction
(whose full serialisation is already the non-witness form) both hashes come
back as the zero hash, which differs from the double SHA-256 of the
serialisation that the claim specifies. -/
theorem c5_txid_stub :
    txHash (fixtureCoinbase 1 50) = zeroHash ∧
    txWitnessHash (fixtureCoinbase 1 50) = zeroHash ∧
    doubleHashSHA256 (serializeTx (fixtureCoinbase 1 50)) ≠ zeroHash := by decide

/-! ## C6 counterexample -/

/-- Wrapping uint64 summation over n copies of the same output. -/
theorem foldl_wrap_replicate (o : TxOutput) : ∀ (n acc : Nat),
    List.foldl (fun a (x : TxOutput) => (a + x.value) % 18446744073709551616)
      (acc % 18446744073709551616) (List.replicate n o) =
      (acc + n * o.value) % 18446744073709551616 := by
  intro n
  induction n with
  | zero => intro acc; simp
  | succ n ih =>
    intro acc
    rw [List.replicate_succ, List.foldl_cons]
    have h1 : (acc % 18446744073709551616 + o.value) % 18446744073709551616 =
        (acc + o.value) % 18446744073709551616 := by omega
    rw [h1, ih (acc + o.value)]
    congr 1
    ring

/-- Exact summation over n copies of the same output. -/
theorem foldl_add_replicate (o : TxOutput) : ∀ (n acc : Nat),
    List.foldl (fun a (x : TxOutput) => a + x.value) acc (List.replicate n o) =
      acc + n * o.value := by
  intro n
  induction n with
  | zero => intro acc; simp
  | succ n ih =>
    intro acc
    rw [List.replicate_succ, List.foldl_cons, ih (acc + o.value)]
    ring

/-- A replicated list has no element satisfying a predicate its element
fails. -/
theorem any_replicate_false {α : Type} (p : α → Bool) (x : α) (h : p x = false) :
    ∀ n, (List.replicate n x).any p = false := by
  intro n
  induction n with
  | zero => rfl
  | succ n ih => rw [List.replicate_succ, List.any_cons, h, ih]; rfl

/-- C6 counterexample: Validate accepts fxOverflowTx although the exact sum
of its output values vastly exceeds MaxMoney, because TotalOutput sums in a
wrapping uint64; so "validate() succeeds iff ... the exact sum is at most
MAX_MONEY" is false at this input. -/
theorem c6_validate_counterexample :
    txValidate fxOverflowTx = none ∧ sumOutputsExact fxOverflowTx > maxMoney := by
  have hwrap : totalOutput fxOverflowTx = 8785 * maxMoney % 18446744073709551616 := by
    have h := foldl_wrap_replicate { value := maxMoney, scriptPubKey := [] } 8785 0
    rw [Nat.zero_mod, Nat.zero_add] at h
    exact h
  have hexact : sumOutputsExact fxOverflowTx = 8785 * maxMoney := by
    have h := foldl_add_replicate { value := maxMoney, scriptPubKey := [] } 8785 0
    rw [Nat.zero_add] at h
    exact h
  have hA : ¬ (fxOverflowTx.inputs.length = 0) := by decide
  have hB : ¬ (fxOverflowTx.outputs.length = 0) := by
    have : fxOverflowTx.outputs.length = 8785 := List.length_replicate 8785 _
    omega
  have hC : ¬ (hasDuplicateInputs fxOverflowTx.inputs = true) := by decide
  have hD : ¬ (fxOverflowTx.outputs.any (fun o => decide (o.value > maxMoney)) = true) := by
    have : fxOverflowTx.outputs.any (fun o => decide (o.value > maxMoney)) = false :=
      any_replicate_false _ _ (by decide) 8785
    rw [this]
    exact Bool.false_ne_true
  have hE : ¬ (totalOutput fxOverflowTx > maxMoney) := by
    rw [hwrap]
    norm_num [maxMoney]
  constructor
  · unfold txValidate
    rw [if_neg hA, if_neg hB, if_neg hC, if_neg hD, if_neg hE]
  · rw [hexact]
    norm_num [maxMoney]

/-! ## C8 counterexample -/

/-- C8 counterexample: a 9-byte input decodes to 1, not 0: the decoder
truncates to the first 8 bytes instead of treating longer inputs as zero. -/
theorem c8_bytes_to_num_counterexample :
    [1, 0, 0, 0, 0, 0, 0, 0, 0].length > 8 ∧
    (∀ x ∈ [1, 0, 0, 0, 0, 0, 0, 0, 0], x < 256) ∧
    bytesToNum [1, 0, 0, 0, 0, 0, 0, 0, 0] = 1 ∧ (1 : Int) ≠ 0 := by decide

/-! ## C9 counterexample -/

/-- C9 counterexample: a payload one byte over 32 MiB is serialised, not
rejected; the only bound Serialize enforces is 0xffffffff. -/
theorem c9_p2p_serialize_counterexample :
    (List.replicate 33554433 (0 : Nat)).length = maxPayload + 1 ∧
    (p2pSerialize [] (List.replicate 33554433 (0 : Nat))).isSome = true := by
  have hsmall : ¬ ((List.replicate 33554433 (0 : Nat)).length > 0xffffffff) := by
    rw [List.length_replicate]
    norm_num
  constructor
  · rw [List.length_replicate]
    norm_num [maxPayload]
  · unfold p2pSerialize
    rw [if_neg hsmall]
    rfl

/-! ## C10 -/

/-- C10 counterexample: on an empty chain, add_block rejects even a well
formed non-empty block — the tip is nil, so the call goes to the
reorganisation handler, which finds nothing to connect to. -/
theorem c10_empty_chain_counterexample :
    fxG.transactions.length = 1 ∧
    addBlock (newBlockChain none) fxG = .error "block does not connect to any known block" := by
  decide

/-- C10 amended: when the chain is empty, add_block fails for every block
with the unconnected-block error (validateBlock's genesis branch is
unreachable through add_block); NewBlockChain, by contrast, installs any
supplied genesis block with no validation at all, processing its
transactions into the UTXO set. -/
theorem c10_empty_chain_amended :
    (∀ b : Block,
      addBlock (newBlockChain none) b = .error "block does not connect to any known block") ∧
    (∀ g : Block,
      (newBlockChain (some g)).blocks = [g] ∧
      (newBlockChain (some g)).tip = some g ∧
      (newBlockChain (some g)).utxoSet = processBlockTransactions [] g) := by
  exact ⟨fun b => rfl, fun g => ⟨rfl, rfl, rfl⟩⟩

/-! ## C7 -/

/-- C7: AdjustDifficulty returns the current bits unchanged for an actual
time of 0 or of exactly the 1209600-second target timespan, and otherwise
clamps the actual time to [302400, 4838400] = [timespan/4, timespan*4],
scales the decoded target by clamped_time / timespan with integer division,
and re-encodes the result to compact form. -/
theorem c7_adjust_difficulty (currentTargetBits actualTimeSeconds : Nat) :
    adjustDifficulty currentTargetBits actualTimeSeconds =
      if actualTimeSeconds = 0 ∨ actualTimeSeconds = 1209600 then currentTargetBits
      else bigTargetToCompact
        (compactToBigTarget currentTargetBits *
          max 302400 (min actualTimeSeconds 4838400) / 1209600) := by
  unfold adjustDifficulty
  by_cases h0 : actualTimeSeconds = 0
  · simp [h0]
  · by_cases h1 : actualTimeSeconds = 1209600
    · simp [h0, h1]
    · have hclamp :
          (if (if actualTimeSeconds > 1209600 * 4 then 1209600 * 4 else actualTimeSeconds) <
              1209600 / 4 then 1209600 / 4
           else if actualTimeSeconds > 1209600 * 4 then 1209600 * 4 else actualTimeSeconds) =
          max 302400 (min actualTimeSeconds 4838400) := by
        split_ifs <;> omega
      simp only [h0, h1, if_false, or_self, or_false, false_or]
      rw [hclamp]

/-! ## C6 amended -/

/-- The duplicate scan fails exactly when the previous outpoints are not
pairwise distinct. -/
theorem hasDuplicateInputs_eq_false_iff (l : List TxInput) :
    hasDuplicateInputs l = false ↔
      List.Pairwise (fun a b => a.previousOutput ≠ b.previousOutput) l := by
  induction l with
  | nil => simp [hasDuplicateInputs]
  | cons i rest ih =>
    simp only [hasDuplicateInputs, Bool.or_eq_false_iff, List.pairwise_cons, ih,
      List.any_eq_false, beq_iff_eq]
    constructor
    · rintro ⟨h1, h2⟩
      exact ⟨fun a ha => fun hc => h1 a ha (hc.symm), h2⟩
    · rintro ⟨h1, h2⟩
      exact ⟨fun a ha => fun hc => h1 a ha (hc.symm), h2⟩

/-- C6 amended: validate() succeeds iff inputs and outputs are non-empty, no
two inputs share an outpoint, every output value is at most MAX_MONEY, and
the sum of output values computed in a wrapping uint64 (not as an unbounded
integer) is at most MAX_MONEY. -/
theorem c6_validate_amended (tx : Transaction) :
    txValidate tx = none ↔
      (tx.inputs ≠ [] ∧ tx.outputs ≠ [] ∧
       List.Pairwise (fun a b => a.previousOutput ≠ b.previousOutput) tx.inputs ∧
       (∀ o ∈ tx.outputs, o.value ≤ maxMoney) ∧
       totalOutput tx ≤ maxMoney) := by
  unfold txValidate
  split_ifs with h1 h2 h3 h4 h5
  · simp only [List.length_eq_zero] at h1
    simp [h1]
  · simp only [List.length_eq_zero] at h2
    simp [h2]
  · constructor
    · intro hc
      simp at hc
    · rintro ⟨-, -, hpw, -, -⟩
      rw [← hasDuplicateInputs_eq_false_iff] at hpw
      rw [h3] at hpw
      exact Bool.noConfusion hpw
  · constructor
    · intro hc
      simp at hc
    · rintro ⟨-, -, -, hvals, -⟩
      rcases List.any_eq_true.mp h4 with ⟨o, ho, hgt⟩
      have := hvals o ho
      simp only [decide_eq_true_eq] at hgt
      omega
  · constructor
    · intro hc
      simp at hc
    · rintro ⟨-, -, -, -, htot⟩
      omega
  · constructor
    · intro _
      refine ⟨?_, ?_, ?_, ?_, ?_⟩
      · intro hc
        exact h1 (by rw [hc]; rfl)
      · intro hc
        exact h2 (by rw [hc]; rfl)
      · exact (hasDuplicateInputs_eq_false_iff _).mp (by
          cases hdup : hasDuplicateInputs tx.inputs
          · rfl
          · exact absurd hdup h3)
      · intro o ho
        by_contra hgt
        exact h4 (List.any_eq_true.mpr ⟨o, ho, by simp; omega⟩)
      · omega
    · intro _
      rfl

/-! ## C8 amended -/

/-- OR-ing a value into bit positions above an accumulator is addition. -/
theorem lor_mul_two_pow_eq_add (n : Nat) :
    ∀ a b : Nat, a < 2 ^ n → a ||| b * 2 ^ n = a + b * 2 ^ n := by
  induction n with
  | zero =>
    intro a b ha
    have : a = 0 := by omega
    subst this
    simp
  | succ n ih =>
    intro a b ha
    have hpow : b * 2 ^ (n + 1) = b * 2 ^ n * 2 := by ring
    have heven : b * 2 ^ (n + 1) % 2 = 0 := by
      rw [hpow]
      omega
    have hdiv2 : b * 2 ^ (n + 1) / 2 = b * 2 ^ n := by
      rw [hpow]
      omega
    have hd : (a ||| b * 2 ^ (n + 1)) / 2 = a / 2 + b * 2 ^ n := by
      rw [Nat.or_div_two, hdiv2]
      exact ih (a / 2) b (by
        have h2 : 2 ^ (n + 1) = 2 ^ n * 2 := by ring
        omega)
    have hm : (a ||| b * 2 ^ (n + 1)) % 2 = a % 2 := by
      by_cases hA : a % 2 = 1
      · have h1 : (a ||| b * 2 ^ (n + 1)) % 2 = 1 := Nat.or_mod_two_eq_one.mpr (Or.inl hA)
        omega
      · have h0 : ¬ ((a ||| b * 2 ^ (n + 1)) % 2 = 1) := by
          intro hc
          rcases Nat.or_mod_two_eq_one.mp hc with h | h
          · exact hA h
          · omega
        omega
    have hx := Nat.div_add_mod (a ||| b * 2 ^ (n + 1)) 2
    have hy := Nat.div_add_mod a 2
    have h2 : 2 ^ (n + 1) = 2 ^ n * 2 := by ring
    omega

/-- The little-endian value of a byte string is below 2 ^ (8 len). -/
theorem leNat_lt (l : List Nat) (hb : ∀ x ∈ l, x < 256) :
    leNat l < 2 ^ (8 * l.length) := by
  induction l with
  | nil => simp [leNat]
  | cons x t ih =>
    have hx : x < 256 := hb x (List.mem_cons_self x t)
    have ht := ih (fun y hy => hb y (List.mem_cons_of_mem x hy))
    have hlen : 2 ^ (8 * (x :: t).length) = 2 ^ (8 * t.length) * 256 := by
      rw [List.length_cons, Nat.mul_add, pow_add]
      norm_num
    rw [hlen]
    show x + leNat t * 256 < 2 ^ (8 * t.length) * 256
    omega

/-- Appending a byte adds its value at the next power position. -/
theorem leNat_append_singleton (l : List Nat) (x : Nat) :
    leNat (l ++ [x]) = leNat l + x * 2 ^ (8 * l.length) := by
  induction l with
  | nil => simp [leNat]
  | cons y t ih =>
    show y + leNat (t ++ [x]) * 256 = y + leNat t * 256 + x * 2 ^ (8 * (y :: t).length)
    rw [ih, List.length_cons]
    have : 2 ^ (8 * (t.length + 1)) = 2 ^ (8 * t.length) * 256 := by
      rw [Nat.mul_add, pow_add]
      norm_num
    rw [this]
    ring

/-- The value of one more prefix byte. -/
theorem leNat_take_succ (l : List Nat) (i : Nat) (h : i < l.length) :
    leNat (l.take (i + 1)) = leNat (l.take i) + l.getD i 0 * 2 ^ (8 * i) := by
  rw [List.take_succ, List.getElem?_eq_getElem h]
  show leNat (l.take i ++ [l[i]]) = _
  rw [leNat_append_singleton, List.length_take]
  have : min i l.length = i := by omega
  rw [this, List.getD_eq_getElem?_getD, List.getElem?_eq_getElem h]
  rfl

/-- Each byte of the list is a byte (below 256). -/
theorem getD_lt_256 (l : List Nat) (hb : ∀ x ∈ l, x < 256) (i : Nat) (h : i < l.length) :
    l.getD i 0 < 256 := by
  rw [List.getD_eq_getElem?_getD, List.getElem?_eq_getElem h]
  exact hb _ (List.getElem_mem h)

set_option maxRecDepth 10000 in
/-- Mask facts for bytes: bit 7 tests the range, and the low mask is mod. -/
theorem byte_mask_facts : ∀ b < 256, ((b &&& 128 ≠ 0) ↔ 128 ≤ b) ∧ b &&& 127 = b % 128 := by
  decide

/-- Running bytesToNum from position i with the prefix value accumulated,
over a string of at most 8 bytes, lands in the sign-magnitude reading. -/
theorem btnLoop_le8 (data : List Nat) (hb : ∀ x ∈ data, x < 256)
    (hL : data.length ≤ 8) :
    ∀ k i fuel, i + k + 1 = data.length → data.length ≤ i + fuel →
      btnLoop data fuel (leNat (data.take i)) i = scriptNumValueLE data := by
  intro k
  induction k with
  | zero =>
    intro i fuel hik hfuel
    obtain ⟨f, rfl⟩ : ∃ f, fuel = f + 1 := ⟨fuel - 1, by omega⟩
    have hiL : i < data.length := by omega
    have hi7 : ¬ (i > 7) := by omega
    have hlast : i = data.length - 1 := by omega
    have hbyte : data.getD i 0 < 256 := getD_lt_256 data hb i hiL
    have hacc : leNat (data.take i) < 2 ^ (8 * i) := by
      have := leNat_lt (data.take i) (fun x hx => hb x (List.mem_of_mem_take hx))
      rwa [List.length_take, min_eq_left (by omega)] at this
    rw [btnLoop]
    rw [if_pos hiL, if_neg hi7, if_pos hlast]
    rcases byte_mask_facts (data.getD i 0) hbyte with ⟨hm1, hm2⟩
    unfold scriptNumValueLE
    rw [if_neg (show ¬ (data.length = 0) from by omega)]
    by_cases hsign : data.getD i 0 &&& 128 ≠ 0
    · rw [if_pos hsign]
      have hge : 128 ≤ data.getD (data.length - 1) 0 := by
        rw [← hlast]
        exact hm1.mp hsign
      rw [if_pos hge]
      have hval : leNat (data.take i) ||| (data.getD i 0 &&& 127) <<< (8 * i) =
          leNat (data.take i) + data.getD i 0 % 128 * 2 ^ (8 * i) := by
        rw [Nat.shiftLeft_eq, hm2]
        exact lor_mul_two_pow_eq_add (8 * i) _ _ hacc
      rw [hval]
      have hsmall : leNat (data.take i) + data.getD i 0 % 128 * 2 ^ (8 * i) <
          9223372036854775808 := by
        have hp : 2 ^ (8 * i) ≤ 2 ^ 56 := Nat.pow_le_pow_right (by norm_num) (by omega)
        have hk : data.getD i 0 % 128 * 2 ^ (8 * i) ≤ 127 * 2 ^ (8 * i) :=
          Nat.mul_le_mul_right _ (by omega)
        have hstep : leNat (data.take i) + data.getD i 0 % 128 * 2 ^ (8 * i) <
            128 * 2 ^ (8 * i) := by omega
        calc leNat (data.take i) + data.getD i 0 % 128 * 2 ^ (8 * i)
            < 128 * 2 ^ (8 * i) := hstep
          _ ≤ 128 * 2 ^ 56 := by omega
          _ ≤ 9223372036854775808 := by norm_num
      rw [Nat.mod_eq_of_lt (show
        leNat (data.take i) + data.getD i 0 % 128 * 2 ^ (8 * i) <
          18446744073709551616 from by omega)]
      unfold int64OfNat
      rw [if_pos hsmall, ← hlast]
    · rw [if_neg hsign]
      have hlt : data.getD i 0 < 128 := by
        have h0 : ¬ (128 ≤ data.getD i 0) := fun hge => hsign (hm1.mpr hge)
        omega
      rw [if_neg (show ¬ (128 ≤ data.getD (data.length - 1) 0) from by rw [← hlast]; omega)]
      have hval : leNat (data.take i) ||| data.getD i 0 <<< (8 * i) =
          leNat (data.take i) + data.getD i 0 * 2 ^ (8 * i) := by
        rw [Nat.shiftLeft_eq]
        exact lor_mul_two_pow_eq_add (8 * i) _ _ hacc
      rw [hval]
      have hsmall : leNat (data.take i) + data.getD i 0 * 2 ^ (8 * i) <
          9223372036854775808 := by
        have hp : 2 ^ (8 * i) ≤ 2 ^ 56 := Nat.pow_le_pow_right (by norm_num) (by omega)
        have hk : data.getD i 0 * 2 ^ (8 * i) ≤ 127 * 2 ^ (8 * i) :=
          Nat.mul_le_mul_right _ (by omega)
        have hstep : leNat (data.take i) + data.getD i 0 * 2 ^ (8 * i) <
            128 * 2 ^ (8 * i) := by omega
        calc leNat (data.take i) + data.getD i 0 * 2 ^ (8 * i)
            < 128 * 2 ^ (8 * i) := hstep
          _ ≤ 128 * 2 ^ 56 := by omega
          _ ≤ 9223372036854775808 := by norm_num
      rw [Nat.mod_eq_of_lt (show
        leNat (data.take i) + data.getD i 0 * 2 ^ (8 * i) <
          18446744073709551616 from by omega)]
      unfold int64OfNat
      rw [if_pos hsmall, ← hlast]
      rw [Nat.mod_eq_of_lt hlt]
  | succ k ih =>
    intro i fuel hik hfuel
    obtain ⟨f, rfl⟩ : ∃ f, fuel = f + 1 := ⟨fuel - 1, by omega⟩
    have hiL : i < data.length := by omega
    have hi7 : ¬ (i > 7) := by omega
    have hlast : ¬ (i = data.length - 1) := by omega
    have hacc : leNat (data.take i) < 2 ^ (8 * i) := by
      have := leNat_lt (data.take i) (fun x hx => hb x (List.mem_of_mem_take hx))
      rwa [List.length_take, min_eq_left (by omega)] at this
    rw [btnLoop]
    rw [if_pos hiL, if_neg hi7, if_neg hlast]
    have hval : leNat (data.take i) ||| data.getD i 0 <<< (8 * i) =
        leNat (data.take (i + 1)) := by
      rw [Nat.shiftLeft_eq, lor_mul_two_pow_eq_add (8 * i) _ _ hacc,
        leNat_take_succ data i hiL]
    rw [hval]
    exact ih (i + 1) f (by omega) (by omega)

/-- Running bytesToNum over more than 8 bytes accumulates exactly the first
8 bytes and exits through the break with their two's-complement reading. -/
theorem btnLoop_gt8 (data : List Nat) (hb : ∀ x ∈ data, x < 256)
    (hL : 8 < data.length) :
    ∀ k i fuel, i + k = 8 → data.length ≤ i + fuel →
      btnLoop data fuel (leNat (data.take i)) i = int64OfNat (leNat (data.take 8)) := by
  intro k
  induction k with
  | zero =>
    intro i fuel hik hfuel
    obtain ⟨f, rfl⟩ : ∃ f, fuel = f + 1 := ⟨fuel - 1, by omega⟩
    have hi8 : i = 8 := by omega
    subst hi8
    rw [btnLoop]
    rw [if_pos (by omega), if_pos (by omega)]
    have hlt : leNat (data.take 8) < 2 ^ (8 * 8) := by
      have := leNat_lt (data.take 8) (fun x hx => hb x (List.mem_of_mem_take hx))
      rwa [List.length_take, min_eq_left (by omega)] at this
    rw [Nat.mod_eq_of_lt (by norm_num at hlt ⊢; omega)]
  | succ k ih =>
    intro i fuel hik hfuel
    obtain ⟨f, rfl⟩ : ∃ f, fuel = f + 1 := ⟨fuel - 1, by omega⟩
    have hiL : i < data.length := by omega
    have hi7 : ¬ (i > 7) := by omega
    have hlast : ¬ (i = data.length - 1) := by omega
    have hacc : leNat (data.take i) < 2 ^ (8 * i) := by
      have := leNat_lt (data.take i) (fun x hx => hb x (List.mem_of_mem_take hx))
      rwa [List.length_take, min_eq_left (by omega)] at this
    rw [btnLoop]
    rw [if_pos hiL, if_neg hi7, if_neg hlast]
    have hval : leNat (data.take i) ||| data.getD i 0 <<< (8 * i) =
        leNat (data.take (i + 1)) := by
      rw [Nat.shiftLeft_eq, lor_mul_two_pow_eq_add (8 * i) _ _ hacc,
        leNat_take_succ data i hiL]
    rw [hval]
    exact ih (i + 1) f (by omega) (by omega)

/-- C8 amended: for byte strings of at most 8 bytes the decoder yields the
little-endian sign-magnitude value (sign bit 0x80 in the most significant
byte); for longer strings it does not yield zero but the two's-complement
int64 built from the first 8 bytes little-endian, with no sign rule
applied. -/
theorem c8_bytes_to_num_amended (data : List Nat) (hb : ∀ x ∈ data, x < 256) :
    bytesToNum data =
      if data.length ≤ 8 then scriptNumValueLE data
      else int64OfNat (leNat (data.take 8)) := by
  unfold bytesToNum
  by_cases hnil : data.length = 0
  · rw [if_pos hnil, if_pos (by omega)]
    unfold scriptNumValueLE
    rw [if_pos hnil]
  · rw [if_neg hnil]
    by_cases hle : data.length ≤ 8
    · rw [if_pos hle]
      have h := btnLoop_le8 data hb hle (data.length - 1) 0 data.length
        (by omega) (by omega)
      simpa using h
    · rw [if_neg hle]
      have h := btnLoop_gt8 data hb (by omega) 8 0 data.length (by omega) (by omega)
      simpa using h

/-- C8 amended witness: the two-byte input 0x05 0x81 decodes through the
sign-magnitude branch. -/
theorem c8_bytes_to_num_amended_witness :
    (∀ x ∈ [5, 129], x < 256) ∧
    bytesToNum [5, 129] =
      (if ([5, 129] : List Nat).length ≤ 8 then scriptNumValueLE [5, 129]
       else int64OfNat (leNat (([5, 129] : List Nat).take 8))) :=
  ⟨by decide, c8_bytes_to_num_amended [5, 129] (by decide)⟩

/-! ## C9 amended -/

/-- A compression round preserves the state length. -/
theorem shaRound_length (st : List Nat) (kw : Nat × Nat) :
    (shaRound st kw).length = st.length := by
  unfold shaRound
  split
  · simp
  · rfl

/-- Folding rounds preserves the state length. -/
theorem foldl_shaRound_length (l : List (Nat × Nat)) :
    ∀ st : List Nat, (l.foldl (fun s kw => shaRound s kw) st).length = st.length := by
  induction l with
  | nil => intro st; rfl
  | cons kw t ih =>
    intro st
    rw [List.foldl_cons, ih, shaRound_length]

/-- Block compression preserves the state length. -/
theorem shaCompress_length (st block : List Nat) :
    (shaCompress st block).length = st.length := by
  unfold shaCompress
  rw [List.length_map, List.length_zip, foldl_shaRound_length]
  omega

/-- Folding block compressions preserves the state length. -/
theorem foldl_shaCompress_length (bs : List (List Nat)) :
    ∀ st : List Nat,
      (bs.foldl (fun st b => shaCompress st (bytesToWords b)) st).length = st.length := by
  induction bs with
  | nil => intro st; rfl
  | cons b t ih =>
    intro st
    rw [List.foldl_cons, ih, shaCompress_length]

/-- Emitting words yields 4 bytes per word. -/
theorem wordsToBytes_length (ws : List Nat) : (wordsToBytes ws).length = 4 * ws.length := by
  induction ws with
  | nil => rfl
  | cons w t ih =>
    show (wordsToBytes (w :: t)).length = 4 * (t.length + 1)
    rw [wordsToBytes]
    simp only [List.length_cons, ih]
    ring

/-- A SHA-256 digest is 32 bytes. -/
theorem sha256_length (msg : List Nat) : (sha256 msg).length = 32 := by
  unfold sha256
  rw [wordsToBytes_length, foldl_shaCompress_length]
  rfl

/-- A double SHA-256 digest is 32 bytes. -/
theorem doubleHashSHA256_length (data : List Nat) : (doubleHashSHA256 data).length = 32 := by
  unfold doubleHashSHA256
  exact sha256_length _

/-- The NUL-padded command field is 12 bytes. -/
theorem pad12_length (command : List Nat) :
    (command.take 12 ++ List.replicate (12 - command.length) 0).length = 12 := by
  rw [List.length_append, List.length_take, List.length_replicate]
  omega

/-- C9 amended: within the 0xffffffff bound, Serialize produces exactly
magic, the NUL-padded 12-byte command, the little-endian payload length, the
first 4 bytes of the double-SHA-256 checksum, then the payload; the only
rejection is a payload length above 0xffffffff — the 32 MiB bound is
enforced by the parser, not the serialiser. -/
theorem c9_p2p_serialize_amended (command payload : List Nat) :
    (payload.length ≤ 4294967295 →
      ∃ msg, p2pSerialize command payload = some msg ∧
        msg.length = 24 + payload.length ∧
        msg.take 4 = [0xf9, 0xbe, 0xb4, 0xd9] ∧
        (msg.drop 4).take 12 = command.take 12 ++ List.replicate (12 - command.length) 0 ∧
        (msg.drop 16).take 4 = le32 payload.length ∧
        (msg.drop 20).take 4 = (doubleHashSHA256 payload).take 4 ∧
        msg.drop 24 = payload) ∧
    (payload.length > 4294967295 → p2pSerialize command payload = none) := by
  constructor
  · intro hle
    refine ⟨_, by unfold p2pSerialize; rw [if_neg (by omega)], ?_, ?_, ?_, ?_, ?_, ?_⟩
    · rw [List.length_append, List.length_append, List.length_append, List.length_append,
        pad12_length, List.length_take]
      have := doubleHashSHA256_length payload
      simp only [le32, List.length_cons, List.length_nil]
      omega
    · rw [List.append_assoc, List.append_assoc, List.append_assoc,
        List.take_left' (show (le32 magicMainnet).length = 4 from rfl)]
      decide
    · rw [List.append_assoc, List.append_assoc, List.append_assoc,
        List.drop_left' (show (le32 magicMainnet).length = 4 from rfl),
        List.take_left' (pad12_length command)]
    · have h16 : (le32 magicMainnet ++
          (command.take 12 ++ List.replicate (12 - command.length) 0)).length = 16 := by
        rw [List.length_append, pad12_length]
        rfl
      rw [List.append_assoc, List.append_assoc, List.append_assoc, ← List.append_assoc,
        List.drop_left' h16,
        List.take_left' (show (le32 payload.length).length = 4 from rfl)]
    · have h20 : ((le32 magicMainnet ++
          (command.take 12 ++ List.replicate (12 - command.length) 0)) ++
            le32 payload.length).length = 20 := by
        rw [List.length_append, List.length_append, pad12_length]
        rfl
      rw [List.append_assoc, List.append_assoc, List.append_assoc, ← List.append_assoc,
        ← List.append_assoc, List.drop_left' h20,
        List.take_left' (by rw [List.length_take, doubleHashSHA256_length]; omega)]
    · have h24 : (((le32 magicMainnet ++
          (command.take 12 ++ List.replicate (12 - command.length) 0)) ++
            le32 payload.length) ++ (doubleHashSHA256 payload).take 4).length = 24 := by
        rw [List.length_append, List.length_append, List.length_append, pad12_length,
          List.length_take, doubleHashSHA256_length]
        rfl
      rw [List.append_assoc, List.append_assoc, List.append_assoc, ← List.append_assoc,
        ← List.append_assoc, ← List.append_assoc, List.drop_left' h24]
  · intro hgt
    unfold p2pSerialize
    rw [if_pos (by omega)]

/-- C9 amended witness: a one-byte command with the empty payload
serialises, and the segment equations hold there. -/
theorem c9_p2p_serialize_amended_witness :
    ([] : List Nat).length ≤ 4294967295 ∧
    (∃ msg, p2pSerialize [118] [] = some msg ∧
      msg.length = 24 + ([] : List Nat).length ∧
      msg.take 4 = [0xf9, 0xbe, 0xb4, 0xd9] ∧
      (msg.drop 4).take 12 = [118].take 12 ++ List.replicate (12 - [118].length) 0 ∧
      (msg.drop 16).take 4 = le32 ([] : List Nat).length ∧
      (msg.drop 20).take 4 = (doubleHashSHA256 []).take 4 ∧
      msg.drop 24 = ([] : List Nat)) :=
  ⟨by decide, (c9_p2p_serialize_amended [118] []).1 (by decide)⟩

/-! ## C1 -/

/-- C1: a block accepted into a fork F rooted at active index p (either
starting a new fork after fork validation, or extending a tracked fork)
reorganises exactly when |F| strictly exceeds the active blocks above p:
then the new active chain is the old prefix up to p followed by F, the tip
is F's last block, and the UTXO set is rebuilt by clearing and replaying
the new chain; with equality, the active chain, tip and UTXO set are
untouched. -/
theorem c1_fork_reorganization (bc : BlockChain) (b : Block) (t : Block) (p : Nat)
    (F : List Block)
    (htip : bc.tip = some t)
    (hneq : ¬ (b.header.prevBlockHash = blockHash t))
    (hpath :
      (findForkPoint bc.blocks b.header.prevBlockHash = (p : Int) ∧
       validateForkBlock b = none ∧ F = [b]) ∨
      (findForkPoint bc.blocks b.header.prevBlockHash = -1 ∧
       ¬ ((findForkConnection bc b.header.prevBlockHash).1 = "") ∧
       (findForkConnection bc b.header.prevBlockHash).2 = (p : Int) ∧
       F = (mapGet? bc.forkBlocks (findForkConnection bc b.header.prevBlockHash).1).getD []
           ++ [b]))
    (hp : p < bc.blocks.length) :
    ∃ bc', addBlock bc b = .ok bc' ∧
      (F.length > bc.blocks.length - p - 1 →
        bc'.blocks = bc.blocks.take (p + 1) ++ F ∧
        bc'.tip = F.getLast? ∧
        bc'.utxoSet = rebuildUTXOSet (bc.blocks.take (p + 1) ++ F)) ∧
      (F.length = bc.blocks.length - p - 1 →
        bc'.blocks = bc.blocks ∧ bc'.tip = bc.tip ∧ bc'.utxoSet = bc.utxoSet) := by
  have haddB : addBlock bc b = handlePotentialReorganization bc b := by
    unfold addBlock
    rw [htip]
    exact if_neg hneq
  rw [haddB]
  rcases hpath with ⟨hfp, hval, hF⟩ | ⟨hfp, hk, hidx, hF⟩
  · subst hF
    simp only [handlePotentialReorganization]
    rw [hfp, if_neg (show ¬ ((p : Int) = -1) from by omega)]
    simp only [hval, List.length_singleton]
    by_cases hgt : 1 > bc.blocks.length - p - 1
    · rw [if_pos (show (1 : Int) > (bc.blocks.length : Int) - (p : Int) - 1 from by omega)]
      refine ⟨_, rfl, fun _ => ?_, fun heq => absurd heq (by omega)⟩
      unfold reorganizeToFork rebuildUTXOSet
      rw [show ((p : Int) + 1).toNat = p + 1 from by omega]
      exact ⟨rfl, rfl, rfl⟩
    · rw [if_neg (show ¬ ((1 : Int) > (bc.blocks.length : Int) - (p : Int) - 1) from by omega)]
      exact ⟨_, rfl, fun hcon => absurd hcon (by omega), fun _ => ⟨rfl, rfl, rfl⟩⟩
  · simp only [handlePotentialReorganization]
    rw [hfp, if_pos rfl, if_neg hk, ← hF, hidx]
    by_cases hgt : F.length > bc.blocks.length - p - 1
    · rw [if_pos (show (F.length : Int) > (bc.blocks.length : Int) - (p : Int) - 1 from
        by omega)]
      refine ⟨_, rfl, fun _ => ?_, fun heq => absurd heq (by omega)⟩
      unfold reorganizeToFork rebuildUTXOSet
      rw [show ((p : Int) + 1).toNat = p + 1 from by omega]
      exact ⟨rfl, rfl, rfl⟩
    · rw [if_neg (show ¬ ((F.length : Int) > (bc.blocks.length : Int) - (p : Int) - 1) from
        by omega)]
      exact ⟨_, rfl, fun hcon => absurd hcon (by omega), fun _ => ⟨rfl, rfl, rfl⟩⟩

set_option maxRecDepth 40000 in
/-- C1 witness: fxF2 extends the tracked fork [fxF1] of fxChain; the fork
(length 2) strictly exceeds the single active block above the fork point,
so the conclusion instantiates to a reorganisation. -/
theorem c1_fork_reorganization_witness :
    ∃ bc', addBlock fxChain fxF2 = .ok bc' ∧
      (([fxF1, fxF2] : List Block).length > fxChain.blocks.length - 0 - 1 →
        bc'.blocks = fxChain.blocks.take (0 + 1) ++ [fxF1, fxF2] ∧
        bc'.tip = ([fxF1, fxF2] : List Block).getLast? ∧
        bc'.utxoSet = rebuildUTXOSet (fxChain.blocks.take (0 + 1) ++ [fxF1, fxF2])) ∧
      (([fxF1, fxF2] : List Block).length = fxChain.blocks.length - 0 - 1 →
        bc'.blocks = fxChain.blocks ∧ bc'.tip = fxChain.tip ∧
        bc'.utxoSet = fxChain.utxoSet) :=
  c1_fork_reorganization fxChain fxF2 fxA 0 [fxF1, fxF2] rfl (by decide)
    (Or.inr ⟨by decide, by decide, by decide, by decide⟩) (by decide)

/-! ## C4 -/

/-- validateForkBlock succeeds exactly on a non-empty block whose first
transaction is coinbase and whose header is a test nonce or passes proof of
work. -/
theorem validateForkBlock_none_iff (b : Block) :
    validateForkBlock b = none ↔
      (b.transactions ≠ [] ∧
       (∃ t0 ts, b.transactions = t0 :: ts ∧ isCoinbase t0 = true) ∧
       (isTestNonce b.header = true ∨
        validateProofOfWork (blockHash b) b.header.bits = true)) := by
  unfold validateForkBlock
  cases htx : b.transactions with
  | nil => simp
  | cons t0 ts =>
    rw [if_neg (show ¬ ((t0 :: ts).length = 0) from by simp)]
    dsimp only
    cases hcb : isCoinbase t0 with
    | false =>
      rw [if_pos (show ¬ (false = true) from by simp)]
      constructor
      · intro hc
        simp at hc
      · rintro ⟨-, ⟨t0', ts', heq, hcb'⟩, -⟩
        injection heq with h1 h2
        rw [← h1, hcb] at hcb'
        exact Bool.noConfusion hcb'
    | true =>
      rw [if_neg (show ¬ (¬ (true = true)) from by simp)]
      by_cases hpw : ¬ (isTestNonce b.header = true) ∧
          ¬ (validateProofOfWork (blockHash b) b.header.bits = true)
      · rw [if_pos hpw]
        constructor
        · intro hc
          simp at hc
        · rintro ⟨-, -, h3 | h3⟩
          · exact absurd h3 hpw.1
          · exact absurd h3 hpw.2
      · rw [if_neg hpw]
        constructor
        · intro _
          refine ⟨by simp, ⟨t0, ts, rfl, hcb⟩, ?_⟩
          by_cases hA : isTestNonce b.header = true
          · exact Or.inl hA
          · refine Or.inr ?_
            by_cases hB : validateProofOfWork (blockHash b) b.header.bits = true
            · exact hB
            · exact absurd ⟨hA, hB⟩ hpw
        · intro _
          rfl

/-- C4 amended: only a block that starts a new fork (its predecessor on the
active chain) is validated on the fork path — acceptance there is exactly
non-empty transactions, coinbase first, and proof of work unless the nonce
is 1 or in [12345, 20000) or [50000, 60000), with no previous-hash-equals-tip
check; a block extending an already tracked fork is accepted with no
validation whatsoever. -/
theorem c4_fork_validation_amended (bc : BlockChain) (b : Block) (t : Block)
    (htip : bc.tip = some t)
    (hneq : ¬ (b.header.prevBlockHash = blockHash t)) :
    (∀ p : Nat, findForkPoint bc.blocks b.header.prevBlockHash = (p : Int) →
      ((∃ bc', addBlock bc b = .ok bc') ↔
        (b.transactions ≠ [] ∧
         (∃ t0 ts, b.transactions = t0 :: ts ∧ isCoinbase t0 = true) ∧
         (isTestNonce b.header = true ∨
          validateProofOfWork (blockHash b) b.header.bits = true)))) ∧
    ((findForkPoint bc.blocks b.header.prevBlockHash = -1 ∧
      ¬ ((findForkConnection bc b.header.prevBlockHash).1 = "")) →
      ∃ bc', addBlock bc b = .ok bc') := by
  have haddB : addBlock bc b = handlePotentialReorganization bc b := by
    unfold addBlock
    rw [htip]
    exact if_neg hneq
  constructor
  · intro p hfp
    rw [haddB]
    simp only [handlePotentialReorganization]
    rw [hfp, if_neg (show ¬ ((p : Int) = -1) from by omega)]
    rw [← validateForkBlock_none_iff b]
    constructor
    · rintro ⟨bc', hbc'⟩
      cases hv : validateForkBlock b with
      | none => rfl
      | some err =>
        rw [hv] at hbc'
        simp at hbc'
    · intro hv
      rw [hv]
      by_cases hc : (1 : Int) > (bc.blocks.length : Int) - (p : Int) - 1
      · exact ⟨_, by rw [if_pos hc]⟩
      · exact ⟨_, by rw [if_neg hc]⟩
  · rintro ⟨hfp, hk⟩
    rw [haddB]
    simp only [handlePotentialReorganization]
    rw [hfp, if_pos rfl, if_neg hk]
    by_cases hc :
        ((((mapGet? bc.forkBlocks
            (findForkConnection bc b.header.prevBlockHash).1).getD [] ++ [b]).length : Int) >
          (bc.blocks.length : Int) - (findForkConnection bc b.header.prevBlockHash).2 - 1)
    · exact ⟨_, by rw [if_pos hc]⟩
    · exact ⟨_, by rw [if_neg hc]⟩

set_option maxRecDepth 40000 in
/-- C4 counterexample: fxEmptyTxBlock has no transactions at all — no
coinbase, nothing for proof of work to protect — yet add_block accepts it
into the tracked fork of fxChain, because the fork-extension path performs
no validation. -/
theorem c4_fork_validation_counterexample :
    fxEmptyTxBlock.transactions = [] ∧
    exceptIsOk (addBlock fxChain fxEmptyTxBlock) = true := by decide

set_option maxRecDepth 40000 in
/-- C4 amended witness: instantiated at fxChain with the fork starter fxF1,
whose predecessor is the active block fxG. -/
theorem c4_fork_validation_amended_witness :
    (∀ p : Nat, findForkPoint fxChain.blocks fxF1.header.prevBlockHash = (p : Int) →
      ((∃ bc', addBlock fxChain fxF1 = .ok bc') ↔
        (fxF1.transactions ≠ [] ∧
         (∃ t0 ts, fxF1.transactions = t0 :: ts ∧ isCoinbase t0 = true) ∧
         (isTestNonce fxF1.header = true ∨
          validateProofOfWork (blockHash fxF1) fxF1.header.bits = true)))) ∧
    ((findForkPoint fxChain.blocks fxF1.header.prevBlockHash = -1 ∧
      ¬ ((findForkConnection fxChain fxF1.header.prevBlockHash).1 = "")) →
      ∃ bc', addBlock fxChain fxF1 = .ok bc') :=
  c4_fork_validation_amended fxChain fxF1 fxA rfl (by decide)

end BitcoinEcho
